import Mathlib

/-!
Verification of the `twist_mux` arbitration engine: a shallow embedding of
`src/twist_mux.cpp` (ROS 2 `twist_mux` node).

Modelling conventions:

* `double` values (velocity components, times, timeouts in seconds) are
  modelled by `ℚ`.
* priorities (`int` in the source) are modelled by `Int`.
* ROS messages `geometry_msgs::msg::Twist` / `TwistStamped` are plain
  structures; a default-constructed `TwistStamped` has a zero time stamp
  and an empty frame id, exactly like the ROS message default constructor.
* The topic-handle classes (`topic_handle.hpp`) are not part of the
  repository snapshot under `src/`; their predicates (`hasExpired`,
  `isMasked`, `isLocked`) and the velocity callback are modelled from the
  specification text, as noted on each definition.  Everything else is
  translated from `src/twist_mux.cpp`.
-/

namespace TwistMuxModel

/-- Model of `geometry_msgs::msg::Vector3` with `ℚ` components in place of
`double`. -/
structure Vector3 where
  x : ℚ
  y : ℚ
  z : ℚ
deriving DecidableEq, Repr

/-- Model of `geometry_msgs::msg::Twist`: linear and angular velocity. -/
structure Twist where
  linear : Vector3
  angular : Vector3
deriving DecidableEq, Repr

/-- Model of `std_msgs::msg::Header`: time stamp and frame id.  A
default-constructed header has stamp `0` and empty frame id. -/
structure Header where
  stamp : ℚ
  frame_id : String
deriving DecidableEq, Repr

/-- Model of `geometry_msgs::msg::TwistStamped`. -/
structure TwistStamped where
  header : Header
  twist : Twist
deriving DecidableEq, Repr

/-- An inbound velocity message: the node's velocity topics are either
`Twist` (bare) or `TwistStamped`, chosen per topic by the `stamped_topic`
parameter (the `velocity_handle_variant` of the source). -/
inductive TwistMsg where
  | stamped (m : TwistStamped)
  | bare (m : Twist)
deriving DecidableEq, Repr

/-- Translation of `hasIncreasedAbsVelocity` from `twist_mux.cpp`: true when
the absolute linear `x` or the absolute angular `z` component grew. -/
def hasIncreasedAbsVelocity (old_twist new_twist : Twist) : Bool :=
  decide (|old_twist.linear.x| < |new_twist.linear.x|) ||
  decide (|old_twist.angular.z| < |new_twist.angular.z|)

/-- One velocity topic handle (`VelocityTopicHandle` of `topic_handle.hpp`):
static name, timeout and priority, plus the mutable last message and the
time stamp used for staleness (`none` before the first reception). -/
structure VelocityTopicHandle where
  name : String
  timeout : ℚ
  priority : Int
  msg : Option (TwistMsg × ℚ)
deriving DecidableEq, Repr

/-- One lock topic handle (`LockTopicHandle`): static name, timeout and
priority, plus the last received assertion and its reception time. -/
structure LockTopicHandle where
  name : String
  timeout : ℚ
  priority : Int
  msg : Option (Bool × ℚ)
deriving DecidableEq, Repr

/-- Modelled from the spec: staleness of a velocity topic handle
(`hasExpired` of `topic_handle.hpp`, not under `src/`).  A handle that has
never received data is stale; otherwise it is stale exactly when the age of
its last message is at least its timeout (the boundary age = timeout is
stale). -/
def hasExpired (h : VelocityTopicHandle) (now : ℚ) : Bool :=
  match h.msg with
  | none => true
  | some (_, stamp) => decide (h.timeout ≤ now - stamp)

/-- Modelled from the spec: masking of a velocity topic handle
(`VelocityTopicHandle::isMasked` of `topic_handle.hpp`, not under `src/`).
Masked when stale, or when the handle's priority is strictly below the
effective lock priority (`masked_by_lock = velocity_priority <
effective_lock_priority`). -/
def isMasked (h : VelocityTopicHandle) (lock_priority : Int) (now : ℚ) : Bool :=
  hasExpired h now || decide (h.priority < lock_priority)

/-- Modelled from the spec: `LockTopicHandle::isLocked` (not under `src/`).
Locked when the last received assertion is true and still fresh
(age strictly below the timeout); a lock that was never received, or whose
age reached its timeout, is unlocked. -/
def isLocked (h : LockTopicHandle) (now : ℚ) : Bool :=
  match h.msg with
  | none => false
  | some (asserted, stamp) => asserted && decide (now - stamp < h.timeout)

/-- The loop body of `TwistMux::getLockPriority`: starting from priority `0`,
take every locked handle whose priority strictly exceeds the running value. -/
def lockLoop (now : ℚ) : List LockTopicHandle → Int → Int
  | [], priority => priority
  | lock_h :: ls, priority =>
      lockLoop now ls
        (if isLocked lock_h now then
          (if priority < lock_h.priority then lock_h.priority else priority)
         else priority)

/-- Translation of `TwistMux::getLockPriority` from `twist_mux.cpp`. -/
def getLockPriority (lock_hs : List LockTopicHandle) (now : ℚ) : Int :=
  lockLoop now lock_hs 0

/-- The loop body of `TwistMux::hasPriority`: the accumulator carries the
running `(priority, velocity_name)` pair, initialised to `(0, "NULL")`, and
is replaced at every unmasked handle whose priority strictly exceeds the
running priority. -/
def selLoop (lock_priority : Int) (now : ℚ) :
    List VelocityTopicHandle → Int × String → Int × String
  | [], acc => acc
  | velocity_h :: hs, acc =>
      selLoop lock_priority now hs
        (if isMasked velocity_h lock_priority now = false then
          (if acc.1 < velocity_h.priority then (velocity_h.priority, velocity_h.name) else acc)
         else acc)

/-- Translation of `TwistMux::hasPriority` from `twist_mux.cpp`: recompute
the effective lock priority, scan the velocity handles for the best unmasked
one, and compare its recorded name with the queried handle's name. -/
def hasPriority (lock_hs : List LockTopicHandle) (velocity_hs : List VelocityTopicHandle)
    (now : ℚ) (twist : VelocityTopicHandle) : Bool :=
  twist.name == (selLoop (getLockPriority lock_hs now) now velocity_hs (0, "NULL")).2

/-- The runtime type of the single output publisher `cmd_pub_`
(`rclcpp::Publisher<TwistStamped>` or `rclcpp::Publisher<Twist>`). -/
inductive PublisherKind where
  | stampedPub
  | barePub
deriving DecidableEq, Repr

/-- The message actually handed to the output publisher. -/
inductive OutMsg where
  | stamped (m : TwistStamped)
  | bare (m : Twist)
deriving DecidableEq, Repr

/-- Outcome of one `publishTwist` call: a published message, or the
`RCLCPP_FATAL` "different type" report (in which case nothing is published). -/
inductive PublishResult where
  | ok (m : OutMsg)
  | fatal (report : String)
deriving DecidableEq, Repr

/-- The publisher set up by `TwistMux::init`: a `TwistStamped` publisher
exactly when `output_stamped` is true, a `Twist` publisher otherwise. -/
def initPub (output_stamped : Bool) : PublisherKind :=
  if output_stamped then PublisherKind.stampedPub else PublisherKind.barePub

/-- Translation of `TwistMux::publishTwist` from `twist_mux.cpp`.  Branches on
`output_stamped`, then checks (dynamic cast) that the stored publisher has
the matching type, then dispatches on the compile-time message type.  In
case 3 (bare in, stamped out) the wrapper `TwistStamped` is
default-constructed — stamp `0`, empty frame — and only its `twist` field is
assigned. -/
def publishTwist (output_stamped : Bool) (pub : PublisherKind) (msg : TwistMsg) :
    PublishResult :=
  if output_stamped then
    match pub with
    | PublisherKind.stampedPub =>
        match msg with
        | TwistMsg.stamped m => PublishResult.ok (OutMsg.stamped m)
        | TwistMsg.bare m =>
            PublishResult.ok (OutMsg.stamped { header := { stamp := 0, frame_id := "" }, twist := m })
    | PublisherKind.barePub =>
        PublishResult.fatal "Expected TwistStamped publisher, but received different type."
  else
    match pub with
    | PublisherKind.barePub =>
        match msg with
        | TwistMsg.stamped m => PublishResult.ok (OutMsg.bare m.twist)
        | TwistMsg.bare m => PublishResult.ok (OutMsg.bare m)
    | PublisherKind.stampedPub =>
        PublishResult.fatal "Expected Twist publisher, but received different type."

/-- The engine state owned by the `TwistMux` node: the two ordered handle
containers (`velocity_hs_`, `lock_hs_`, registration order preserved) and
the process-wide `output_stamped` flag. -/
structure TwistMuxState where
  velocity_hs : List VelocityTopicHandle
  lock_hs : List LockTopicHandle
  output_stamped : Bool
deriving DecidableEq, Repr

/-- Method-call view of `TwistMux::getLockPriority` on the node state:
the body only reads the lock handles, so the state comes back unchanged. -/
def getLockPriorityCall (m : TwistMuxState) (now : ℚ) : Int × TwistMuxState :=
  (getLockPriority m.lock_hs now, m)

/-- Modelled from the spec: the velocity callback
(`VelocityTopicHandle::callback` of `topic_handle.hpp`, not under `src/`).
After the handle's own message was recorded, the engine is asked whether the
just-updated source has priority; its command is forwarded through
`publishTwist` exactly in that case, and silently dropped otherwise.  The
handle list is taken post-update. -/
def onVelocityReceived (m : TwistMuxState) (now : ℚ) (twist : VelocityTopicHandle)
    (msg : TwistMsg) : Option PublishResult :=
  if hasPriority m.lock_hs m.velocity_hs now twist then
    some (publishTwist m.output_stamped (initPub m.output_stamped) msg)
  else
    none

/-! Concrete configurations used to evaluate the model on explicit inputs. -/

/-- A sample velocity value. -/
def c1twist : Twist := ⟨⟨1, 0, 0⟩, ⟨0, 0, 0⟩⟩

/-- A fresh high-priority source (priority `2`, updated at `1/2`). -/
def c1a : VelocityTopicHandle := ⟨"nav", 1, 2, some (TwistMsg.bare c1twist, 1/2)⟩

/-- A fresh low-priority source (priority `1`, updated at `1/2`). -/
def c1b : VelocityTopicHandle := ⟨"joy", 1, 1, some (TwistMsg.bare c1twist, 1/2)⟩

/-- A fresh source configured with priority `0`: legal per the spec
(`priority must be ≥ 0`), but the selection loop starts its running maximum
at `0` and only replaces it on strict increase, so this source can never be
recorded as the winner. -/
def c1z : VelocityTopicHandle := ⟨"drive", 1, 0, some (TwistMsg.bare c1twist, 1/2)⟩

/-- A sample velocity value. -/
def c2twist : Twist := ⟨⟨1, 1, 0⟩, ⟨0, 0, 1⟩⟩

/-- A fresh source of priority `3` (updated at `1/2`). -/
def c2h : VelocityTopicHandle := ⟨"joy2", 1, 3, some (TwistMsg.bare c2twist, 1/2)⟩

/-- A lock of priority `3`, asserted at time `0`, timeout `2`. -/
def c3l1 : LockTopicHandle := ⟨"estop", 2, 3, some (true, 0)⟩

/-- A lock of priority `4` whose last assertion is `false`. -/
def c3l2 : LockTopicHandle := ⟨"pause", 2, 4, some (false, 0)⟩

/-- A lock of priority `1`, asserted at time `0`, timeout `2`. -/
def c3l3 : LockTopicHandle := ⟨"joylock", 2, 1, some (true, 0)⟩

/-- A sample velocity value. -/
def c4twist : Twist := ⟨⟨2, 0, 0⟩, ⟨0, 0, 1⟩⟩

/-- First-registered member of a priority-`2` tie (updated at `1/2`). -/
def c4a : VelocityTopicHandle := ⟨"nav1", 1, 2, some (TwistMsg.bare c4twist, 1/2)⟩

/-- Second-registered member of a priority-`2` tie (updated at `1/2`). -/
def c4b : VelocityTopicHandle := ⟨"nav2", 1, 2, some (TwistMsg.bare c4twist, 1/2)⟩

/-- Second-registered member of a priority-`0` tie (updated at `1/2`). -/
def c4zb : VelocityTopicHandle := ⟨"drive2", 1, 0, some (TwistMsg.bare c4twist, 1/2)⟩

/-- A sample velocity value received at time `5` in the C5 scenario. -/
def c5twist : Twist := ⟨⟨2, 0, 0⟩, ⟨0, 0, 1⟩⟩

/-- A sample velocity value. -/
def c6twist : Twist := ⟨⟨1, 0, 0⟩, ⟨0, 0, 0⟩⟩

/-- A source that never received data, hence always masked. -/
def c6stale : VelocityTopicHandle := ⟨"drive6", 1, 3, none⟩

/-- A masked (never-updated) source whose configured name collides with the
loop's internal sentinel string. -/
def c6null : VelocityTopicHandle := ⟨"NULL", 1, 5, none⟩

/-! Helper lemmas about the two scanning loops. -/

/-- The lock-priority loop never decreases its accumulator. -/
theorem lockLoop_le (now : ℚ) :
    ∀ (ls : List LockTopicHandle) (p : Int), p ≤ lockLoop now ls p := by
  intro ls
  induction ls with
  | nil => intro p; simp [lockLoop]
  | cons lock_h ls ih =>
    intro p
    by_cases hlock : isLocked lock_h now = true
    · by_cases hlt : p < lock_h.priority
      · calc p ≤ lock_h.priority := le_of_lt hlt
          _ ≤ lockLoop now ls lock_h.priority := ih _
          _ = lockLoop now (lock_h :: ls) p := by simp [lockLoop, hlock, hlt]
      · simpa [lockLoop, hlock, hlt] using ih p
    · simpa [lockLoop, hlock] using ih p

/-- Every locked handle's priority is bounded by the loop's result. -/
theorem lockLoop_bound (now : ℚ) :
    ∀ (ls : List LockTopicHandle) (p : Int) (l : LockTopicHandle),
      l ∈ ls → isLocked l now = true → l.priority ≤ lockLoop now ls p := by
  intro ls
  induction ls with
  | nil => intro p l hl; simp at hl
  | cons lock_h ls ih =>
    intro p l hl hlocked
    rcases List.mem_cons.mp hl with rfl | hmem
    · by_cases hlt : p < l.priority
      · simpa [lockLoop, hlocked, hlt] using lockLoop_le now ls l.priority
      · calc l.priority ≤ p := le_of_not_lt hlt
          _ ≤ lockLoop now ls p := lockLoop_le now ls p
          _ = lockLoop now (l :: ls) p := by simp [lockLoop, hlocked, hlt]
    · by_cases hlock : isLocked lock_h now = true
      · by_cases hlt : p < lock_h.priority
        · simpa [lockLoop, hlock, hlt] using ih lock_h.priority l hmem hlocked
        · simpa [lockLoop, hlock, hlt] using ih p l hmem hlocked
      · simpa [lockLoop, hlock] using ih p l hmem hlocked

/-- The loop's result is either the initial accumulator or the priority of
some locked handle of the list. -/
theorem lockLoop_mem (now : ℚ) :
    ∀ (ls : List LockTopicHandle) (p : Int),
      lockLoop now ls p = p ∨
      ∃ l, l ∈ ls ∧ isLocked l now = true ∧ lockLoop now ls p = l.priority := by
  intro ls
  induction ls with
  | nil => intro p; left; rfl
  | cons lock_h ls ih =>
    intro p
    by_cases hlock : isLocked lock_h now = true
    · by_cases hlt : p < lock_h.priority
      · have hstep : lockLoop now (lock_h :: ls) p = lockLoop now ls lock_h.priority := by
          simp [lockLoop, hlock, hlt]
        rcases ih lock_h.priority with heq | ⟨l, hm, hl, he⟩
        · right
          exact ⟨lock_h, List.mem_cons_self _ _, hlock, by rw [hstep, heq]⟩
        · right
          exact ⟨l, List.mem_cons_of_mem _ hm, hl, by rw [hstep, he]⟩
      · have hstep : lockLoop now (lock_h :: ls) p = lockLoop now ls p := by
          simp [lockLoop, hlock, hlt]
        rcases ih p with heq | ⟨l, hm, hl, he⟩
        · left; rw [hstep, heq]
        · right; exact ⟨l, List.mem_cons_of_mem _ hm, hl, by rw [hstep, he]⟩
    · have hstep : lockLoop now (lock_h :: ls) p = lockLoop now ls p := by
        simp [lockLoop, hlock]
      rcases ih p with heq | ⟨l, hm, hl, he⟩
      · left; rw [hstep, heq]
      · right; exact ⟨l, List.mem_cons_of_mem _ hm, hl, by rw [hstep, he]⟩

/-- Characterisation of the winner-selection loop of `hasPriority`: either
no unmasked handle beats the initial accumulator (which then survives), or
the result is the priority and name of the first unmasked handle realising
the maximal unmasked priority above the initial one. -/
theorem selLoop_spec (lp : Int) (now : ℚ) :
    ∀ (hs : List VelocityTopicHandle) (acc : Int × String),
      (selLoop lp now hs acc = acc ∧
        ∀ t ∈ hs, isMasked t lp now = false → t.priority ≤ acc.1) ∨
      (∃ pre w post, hs = pre ++ w :: post ∧ isMasked w lp now = false ∧
        acc.1 < w.priority ∧ selLoop lp now hs acc = (w.priority, w.name) ∧
        (∀ t ∈ pre, isMasked t lp now = false → t.priority < w.priority) ∧
        (∀ t ∈ post, isMasked t lp now = false → t.priority ≤ w.priority)) := by
  intro hs
  induction hs with
  | nil => intro acc; left; exact ⟨rfl, by simp⟩
  | cons velocity_h hs ih =>
    intro acc
    by_cases hm : isMasked velocity_h lp now = false
    · by_cases hlt : acc.1 < velocity_h.priority
      · have hstep : selLoop lp now (velocity_h :: hs) acc
            = selLoop lp now hs (velocity_h.priority, velocity_h.name) := by
          simp [selLoop, hm, hlt]
        rcases ih (velocity_h.priority, velocity_h.name) with
          ⟨heq, hbound⟩ | ⟨pre, w, post, hsplit, hwm, hwgt, heq, hpre, hpost⟩
        · right
          refine ⟨[], velocity_h, hs, by simp, hm, hlt, by rw [hstep, heq], by simp, ?_⟩
          intro t ht hmt
          simpa using hbound t ht hmt
        · right
          refine ⟨velocity_h :: pre, w, post, by simp [hsplit], hwm,
            lt_trans hlt hwgt, by rw [hstep, heq], ?_, hpost⟩
          intro t ht hmt
          rcases List.mem_cons.mp ht with rfl | htp
          · exact hwgt
          · exact hpre t htp hmt
      · have hstep : selLoop lp now (velocity_h :: hs) acc = selLoop lp now hs acc := by
          simp [selLoop, hm, hlt]
        have hple : velocity_h.priority ≤ acc.1 := le_of_not_lt hlt
        rcases ih acc with ⟨heq, hbound⟩ | ⟨pre, w, post, hsplit, hwm, hwgt, heq, hpre, hpost⟩
        · left
          refine ⟨by rw [hstep, heq], ?_⟩
          intro t ht hmt
          rcases List.mem_cons.mp ht with rfl | htp
          · exact hple
          · exact hbound t htp hmt
        · right
          refine ⟨velocity_h :: pre, w, post, by simp [hsplit], hwm, hwgt,
            by rw [hstep, heq], ?_, hpost⟩
          intro t ht hmt
          rcases List.mem_cons.mp ht with rfl | htp
          · exact lt_of_le_of_lt hple hwgt
          · exact hpre t htp hmt
    · have hstep : selLoop lp now (velocity_h :: hs) acc = selLoop lp now hs acc := by
        simp [selLoop, hm]
      rcases ih acc with ⟨heq, hbound⟩ | ⟨pre, w, post, hsplit, hwm, hwgt, heq, hpre, hpost⟩
      · left
        refine ⟨by rw [hstep, heq], ?_⟩
        intro t ht hmt
        rcases List.mem_cons.mp ht with rfl | htp
        · exact absurd hmt hm
        · exact hbound t htp hmt
      · right
        refine ⟨velocity_h :: pre, w, post, by simp [hsplit], hwm, hwgt,
          by rw [hstep, heq], ?_, hpost⟩
        intro t ht hmt
        rcases List.mem_cons.mp ht with rfl | htp
        · exact absurd hmt hm
        · exact hpre t htp hmt

/-- Two decompositions of one list around distinguished elements: the
decompositions agree, or each distinguished element sits on the stated side
of the other. -/
theorem split_cases {α : Type} :
    ∀ (pre post pre₂ post₂ : List α) (a b : α),
      pre ++ a :: post = pre₂ ++ b :: post₂ →
      (pre = pre₂ ∧ a = b ∧ post = post₂) ∨
      (a ∈ pre₂ ∧ b ∈ post) ∨ (b ∈ pre ∧ a ∈ post₂) := by
  intro pre
  induction pre with
  | nil =>
    intro post pre₂ post₂ a b h
    cases pre₂ with
    | nil =>
      rw [List.nil_append, List.nil_append] at h
      injection h with h1 h2
      exact Or.inl ⟨rfl, h1, h2⟩
    | cons y pre₂ =>
      rw [List.nil_append, List.cons_append] at h
      injection h with h1 h2
      subst h1
      refine Or.inr (Or.inl ⟨List.mem_cons_self _ _, ?_⟩)
      rw [h2]
      exact List.mem_append_right _ (List.mem_cons_self _ _)
  | cons x pre ih =>
    intro post pre₂ post₂ a b h
    cases pre₂ with
    | nil =>
      rw [List.nil_append, List.cons_append] at h
      injection h with h1 h2
      subst h1
      refine Or.inr (Or.inr ⟨List.mem_cons_self _ _, ?_⟩)
      rw [← h2]
      exact List.mem_append_right _ (List.mem_cons_self _ _)
    | cons y pre₂ =>
      rw [List.cons_append, List.cons_append] at h
      injection h with h1 h2
      subst h1
      rcases ih post pre₂ post₂ a b h2 with ⟨rfl, rfl, rfl⟩ | ⟨ha, hb⟩ | ⟨hb, ha⟩
      · exact Or.inl ⟨rfl, rfl, rfl⟩
      · exact Or.inr (Or.inl ⟨List.mem_cons_of_mem _ ha, hb⟩)
      · exact Or.inr (Or.inr ⟨List.mem_cons_of_mem _ hb, ha⟩)

/-- There is at most one position holding an unmasked handle that strictly
beats every earlier unmasked handle and weakly beats every later one. -/
theorem first_max_unique {lp : Int} {now : ℚ}
    {pre post pre₂ post₂ : List VelocityTopicHandle} {w s : VelocityTopicHandle}
    (heq : pre ++ w :: post = pre₂ ++ s :: post₂)
    (hwm : isMasked w lp now = false) (hsm : isMasked s lp now = false)
    (hpre : ∀ t ∈ pre, isMasked t lp now = false → t.priority < w.priority)
    (hpost : ∀ t ∈ post, isMasked t lp now = false → t.priority ≤ w.priority)
    (hpre₂ : ∀ t ∈ pre₂, isMasked t lp now = false → t.priority < s.priority)
    (hpost₂ : ∀ t ∈ post₂, isMasked t lp now = false → t.priority ≤ s.priority) :
    w = s := by
  rcases split_cases pre post pre₂ post₂ w s heq with ⟨_, h, _⟩ | ⟨hw2, hs2⟩ | ⟨hs2, hw2⟩
  · exact h
  · exact absurd (hpre₂ w hw2 hwm) (not_lt.mpr (hpost s hs2 hsm))
  · exact absurd (hpre s hs2 hsm) (not_lt.mpr (hpost₂ w hw2 hwm))

/-- Distinct names identify handles inside a duplicate-name-free list. -/
theorem name_inj {hs : List VelocityTopicHandle}
    (hnodup : (hs.map VelocityTopicHandle.name).Nodup) :
    ∀ s ∈ hs, ∀ w ∈ hs, s.name = w.name → s = w :=
  fun _ hsmem _ hwmem he => List.inj_on_of_nodup_map hnodup hsmem hwmem he

/-! Claim theorems. -/

/-- **C1** (amended).  For a registered velocity source `twist` (unique
names, none of them the internal sentinel name `"NULL"`), `hasPriority`
returns true iff `twist` is the winner with strictly positive priority:
`twist` is unmasked under the effective lock priority, every unmasked source
registered before it has strictly smaller priority, every unmasked source
registered after it has priority at most `twist`'s, and `twist`'s priority
is strictly greater than `0`; moreover a velocity update is handed to the
output publisher exactly when its source's `hasPriority` query succeeds. -/
theorem hasPriority_iff_winner
    (lock_hs : List LockTopicHandle) (velocity_hs : List VelocityTopicHandle)
    (now : ℚ) (twist : VelocityTopicHandle)
    (hnodup : (velocity_hs.map VelocityTopicHandle.name).Nodup)
    (hnull : "NULL" ∉ velocity_hs.map VelocityTopicHandle.name)
    (hmem : twist ∈ velocity_hs) :
    (hasPriority lock_hs velocity_hs now twist = true ↔
      (isMasked twist (getLockPriority lock_hs now) now = false ∧
       0 < twist.priority ∧
       ∃ pre post, velocity_hs = pre ++ twist :: post ∧
         (∀ t ∈ pre, isMasked t (getLockPriority lock_hs now) now = false →
            t.priority < twist.priority) ∧
         (∀ t ∈ post, isMasked t (getLockPriority lock_hs now) now = false →
            t.priority ≤ twist.priority))) ∧
    (∀ (st : Bool) (msg : TwistMsg),
      (onVelocityReceived ⟨velocity_hs, lock_hs, st⟩ now twist msg).isSome =
        hasPriority lock_hs velocity_hs now twist) := by
  constructor
  · have hname : twist.name ≠ "NULL" :=
      fun hc => hnull (hc ▸ List.mem_map_of_mem VelocityTopicHandle.name hmem)
    rcases selLoop_spec (getLockPriority lock_hs now) now velocity_hs (0, "NULL") with
      ⟨heq, hbound⟩ | ⟨pre, w, post, hsplit, hwm, hwgt, heq, hpre, hpost⟩
    · constructor
      · intro h
        have : twist.name = "NULL" := by simpa [hasPriority, heq] using h
        exact absurd this hname
      · rintro ⟨hm, hpos, pre, post, hsplit, hpre, hpost⟩
        have := hbound twist hmem hm
        simp only at this
        exact absurd hpos (not_lt.mpr this)
    · have hw_mem : w ∈ velocity_hs := by
        rw [hsplit]; exact List.mem_append_right _ (List.mem_cons_self _ _)
      constructor
      · intro h
        have hnm : twist.name = w.name := by simpa [hasPriority, heq] using h
        have hw : twist = w := name_inj hnodup twist hmem w hw_mem hnm
        subst hw
        exact ⟨hwm, hwgt, pre, post, hsplit, hpre, hpost⟩
      · rintro ⟨hm, hpos, pre₂, post₂, hsplit₂, hpre₂, hpost₂⟩
        have hw : w = twist :=
          first_max_unique (hsplit.symm.trans hsplit₂) hwm hm hpre hpost hpre₂ hpost₂
        simp [hasPriority, heq, hw]
  · intro st msg
    by_cases h : hasPriority lock_hs velocity_hs now twist = true
    · simp [onVelocityReceived, h]
    · simp [onVelocityReceived, h]

/-- **C2**.  For a velocity source that is not stale, masking is decided by
the lock term alone: the source is masked iff its static priority is
strictly below the effective lock priority, and a source whose priority
equals the effective lock priority is never masked by locks. -/
theorem isMasked_by_lock_iff :
    ∀ (h : VelocityTopicHandle) (lock_priority : Int) (now : ℚ),
      hasExpired h now = false →
      ((isMasked h lock_priority now = true ↔ h.priority < lock_priority) ∧
       (h.priority = lock_priority → isMasked h lock_priority now = false)) := by
  intro h lock_priority now hfresh
  constructor
  · simp [isMasked, hfresh]
  · intro he
    simp [isMasked, hfresh, he]

/-- **C3**.  With the (spec-mandated) non-negative lock priorities,
`getLockPriority` returns `0` when no lock handle is currently locked, and
otherwise returns the maximum priority attained by a currently locked
handle. -/
theorem getLockPriority_max
    (lock_hs : List LockTopicHandle) (now : ℚ)
    (hnn : ∀ l ∈ lock_hs, 0 ≤ l.priority) :
    ((∀ l ∈ lock_hs, isLocked l now = false) → getLockPriority lock_hs now = 0) ∧
    ((∃ l ∈ lock_hs, isLocked l now = true) →
      (∃ l ∈ lock_hs, isLocked l now = true ∧ l.priority = getLockPriority lock_hs now) ∧
      (∀ l ∈ lock_hs, isLocked l now = true → l.priority ≤ getLockPriority lock_hs now)) := by
  constructor
  · intro hall
    rcases lockLoop_mem now lock_hs 0 with h | ⟨l, hm, hl, _⟩
    · exact h
    · rw [hall l hm] at hl
      exact absurd hl (by simp)
  · rintro ⟨l0, hm0, hl0⟩
    refine ⟨?_, fun l hm hl => lockLoop_bound now lock_hs 0 l hm hl⟩
    rcases lockLoop_mem now lock_hs 0 with h | ⟨l, hm, hl, he⟩
    · have hle : l0.priority ≤ getLockPriority lock_hs now :=
        lockLoop_bound now lock_hs 0 l0 hm0 hl0
      have h0 : getLockPriority lock_hs now = 0 := h
      exact ⟨l0, hm0, hl0, le_antisymm (by rw [h0] at hle ⊢; exact hle)
        (h0 ▸ hnn l0 hm0)⟩
    · exact ⟨l, hm, hl, he.symm⟩

/-- **C4** (amended).  When several unmasked sources share the highest
priority among unmasked sources and that priority is strictly positive,
the earliest-registered of them wins `hasPriority` and every later one
loses, whatever the registration order (names assumed unique). -/
theorem first_registered_wins_ties
    (lock_hs : List LockTopicHandle) (velocity_hs : List VelocityTopicHandle)
    (now : ℚ) (pre post : List VelocityTopicHandle) (s : VelocityTopicHandle)
    (hnodup : (velocity_hs.map VelocityTopicHandle.name).Nodup)
    (hsplit : velocity_hs = pre ++ s :: post)
    (hm : isMasked s (getLockPriority lock_hs now) now = false)
    (hpos : 0 < s.priority)
    (hmax : ∀ t ∈ velocity_hs,
      isMasked t (getLockPriority lock_hs now) now = false → t.priority ≤ s.priority)
    (hfirst : ∀ t ∈ pre,
      isMasked t (getLockPriority lock_hs now) now = false → t.priority ≠ s.priority)
    (htie : ∃ t ∈ post,
      isMasked t (getLockPriority lock_hs now) now = false ∧ t.priority = s.priority) :
    hasPriority lock_hs velocity_hs now s = true ∧
    ∀ t ∈ post, isMasked t (getLockPriority lock_hs now) now = false →
      t.priority = s.priority → hasPriority lock_hs velocity_hs now t = false := by
  have hs_mem : s ∈ velocity_hs := by
    rw [hsplit]; exact List.mem_append_right _ (List.mem_cons_self _ _)
  have hpre : ∀ t ∈ pre,
      isMasked t (getLockPriority lock_hs now) now = false → t.priority < s.priority := by
    intro t ht hmt
    have h1 : t.priority ≤ s.priority :=
      hmax t (by rw [hsplit]; exact List.mem_append_left _ ht) hmt
    exact lt_of_le_of_ne h1 (hfirst t ht hmt)
  have hpost : ∀ t ∈ post,
      isMasked t (getLockPriority lock_hs now) now = false → t.priority ≤ s.priority := by
    intro t ht hmt
    refine hmax t ?_ hmt
    rw [hsplit]
    exact List.mem_append_right _ (List.mem_cons_of_mem _ ht)
  rcases selLoop_spec (getLockPriority lock_hs now) now velocity_hs (0, "NULL") with
    ⟨_, hbound⟩ | ⟨pre₂, w, post₂, hsplit₂, hwm, hwgt, heq, hpre₂, hpost₂⟩
  · have := hbound s hs_mem hm
    simp only at this
    exact absurd hpos (not_lt.mpr this)
  · have hw : w = s :=
      first_max_unique (hsplit₂.symm.trans hsplit) hwm hm hpre₂ hpost₂ hpre hpost
    subst hw
    have hnn : w.name ∉ post.map VelocityTopicHandle.name := by
      have h1 : ((pre ++ w :: post).map VelocityTopicHandle.name).Nodup := by
        rw [← hsplit]; exact hnodup
      rw [List.map_append, List.map_cons] at h1
      have h2 := h1.of_append_right
      exact (List.nodup_cons.mp h2).1
    refine ⟨by simp [hasPriority, heq], ?_⟩
    intro t ht hmt hpt
    have htn : t.name ≠ w.name := by
      intro hc
      exact hnn (hc ▸ List.mem_map_of_mem VelocityTopicHandle.name ht)
    simp [hasPriority, heq, htn]

/-- **C6** (amended).  When every registered velocity source is masked and
no source bears the internal sentinel name `"NULL"`, no source wins:
`hasPriority` is false for all of them and no velocity update is forwarded
to the output publisher. -/
theorem all_masked_no_winner
    (lock_hs : List LockTopicHandle) (velocity_hs : List VelocityTopicHandle) (now : ℚ)
    (hnull : "NULL" ∉ velocity_hs.map VelocityTopicHandle.name)
    (hall : ∀ t ∈ velocity_hs, isMasked t (getLockPriority lock_hs now) now = true) :
    ∀ s ∈ velocity_hs, hasPriority lock_hs velocity_hs now s = false ∧
      ∀ (st : Bool) (msg : TwistMsg),
        onVelocityReceived ⟨velocity_hs, lock_hs, st⟩ now s msg = none := by
  intro s hs_mem
  rcases selLoop_spec (getLockPriority lock_hs now) now velocity_hs (0, "NULL") with
    ⟨heq, _⟩ | ⟨pre, w, post, hsplit, hwm, _, _, _, _⟩
  · have hname : s.name ≠ "NULL" :=
      fun hc => hnull (hc ▸ List.mem_map_of_mem VelocityTopicHandle.name hs_mem)
    have hP : hasPriority lock_hs velocity_hs now s = false := by
      simp [hasPriority, heq, hname]
    exact ⟨hP, fun st msg => by simp [onVelocityReceived, hP]⟩
  · have hw_mem : w ∈ velocity_hs := by
      rw [hsplit]; exact List.mem_append_right _ (List.mem_cons_self _ _)
    rw [hall w hw_mem] at hwm
    exact absurd hwm (by simp)

/-- **C5** (amended).  With time-stamped output configured, a bare command
from the winning source is wrapped into a `TwistStamped` whose velocity
payload equals the input and whose header is default-initialised — time
stamp `0` and empty frame id — irrespective of the reception time: no
current time is synthesized into the wrapper. -/
theorem publishTwist_bare_to_stamped :
    ∀ tw : Twist,
      publishTwist true (initPub true) (TwistMsg.bare tw) =
        PublishResult.ok
          (OutMsg.stamped { header := { stamp := 0, frame_id := "" }, twist := tw }) :=
  fun _ => rfl

/-- **C7**.  With a time-stamped source feeding time-stamped output,
publishing is a pure pass-through: the outbound message is the inbound
message, with every velocity, stamp and frame field untouched. -/
theorem publishTwist_stamped_passthrough :
    ∀ m : TwistStamped,
      publishTwist true (initPub true) (TwistMsg.stamped m) =
        PublishResult.ok (OutMsg.stamped m) :=
  fun _ => rfl

/-- **C8**.  Because `init` creates a `TwistStamped` publisher exactly when
`output_stamped` holds and a `Twist` publisher otherwise, every
`publishTwist` call on the publisher built by `init` lands in one of the
four conversion cases and publishes; the two fatal
representation-mismatch branches are unreachable. -/
theorem publishTwist_no_fatal :
    ∀ (os : Bool) (msg : TwistMsg),
      ∃ m, publishTwist os (initPub os) msg = PublishResult.ok m := by
  intro os msg
  cases os <;> cases msg <;> exact ⟨_, rfl⟩

/-- **C9**.  A `getLockPriority` call leaves the engine's handle state
unchanged, and a second call at the same time on the resulting state
returns the same priority. -/
theorem getLockPriorityCall_pure :
    ∀ (m : TwistMuxState) (now : ℚ),
      (getLockPriorityCall m now).2 = m ∧
      (getLockPriorityCall ((getLockPriorityCall m now).2) now).1 =
        (getLockPriorityCall m now).1 :=
  fun _ _ => ⟨rfl, rfl⟩

/-- **C10**.  `hasIncreasedAbsVelocity` holds iff the absolute linear `x` or
the absolute angular `z` component increased, and its value does not depend
on the remaining four velocity components. -/
theorem hasIncreasedAbsVelocity_iff :
    ∀ old_twist new_twist : Twist,
      (hasIncreasedAbsVelocity old_twist new_twist = true ↔
        (|old_twist.linear.x| < |new_twist.linear.x| ∨
         |old_twist.angular.z| < |new_twist.angular.z|)) ∧
      (∀ oly olz oax oay nly nlz nax nay : ℚ,
        hasIncreasedAbsVelocity
          ⟨⟨old_twist.linear.x, oly, olz⟩, ⟨oax, oay, old_twist.angular.z⟩⟩
          ⟨⟨new_twist.linear.x, nly, nlz⟩, ⟨nax, nay, new_twist.angular.z⟩⟩ =
          hasIncreasedAbsVelocity old_twist new_twist) := by
  intro old_twist new_twist
  constructor
  · simp [hasIncreasedAbsVelocity]
  · intro oly olz oax oay nly nlz nax nay
    simp [hasIncreasedAbsVelocity]

/-! Counterexamples and witnesses. -/

/-- **C1**, counterexample to the claim as stated.  A lone fresh source of
priority `0` is unmasked and trivially has the greatest priority among
unmasked sources — by the spec it is the winner — yet `hasPriority` answers
false, because the loop's running maximum starts at `0` and is only replaced
on strict increase, so the winner name is never recorded. -/
theorem c1_claim_counterexample :
    isMasked c1z (getLockPriority [] 1) 1 = false ∧
    (∀ t ∈ [c1z], isMasked t (getLockPriority [] 1) 1 = false →
      t.priority ≤ c1z.priority) ∧
    hasPriority [] [c1z] 1 c1z = false := by
  refine ⟨?_, ?_, ?_⟩
  · norm_num [isMasked, hasExpired, getLockPriority, lockLoop, c1z]
  · intro t ht _
    rw [List.mem_singleton.mp ht]
  · have hm : isMasked c1z (getLockPriority [] 1) 1 = false := by
      norm_num [isMasked, hasExpired, getLockPriority, lockLoop, c1z]
    simp [hasPriority, selLoop, hm, c1z]

/-- **C1**, witness: with a fresh priority-`2` source registered before a
fresh priority-`1` source and no lock asserted, the former wins. -/
theorem hasPriority_iff_winner_witness :
    hasPriority [] [c1a, c1b] 1 c1a = true := by
  have hm : isMasked c1a (getLockPriority [] 1) 1 = false := by
    norm_num [isMasked, hasExpired, getLockPriority, lockLoop, c1a]
  refine ((hasPriority_iff_winner [] [c1a, c1b] 1 c1a (by decide) (by decide)
    (List.mem_cons_self _ _)).1).mpr ⟨hm, by decide, [], [c1b], rfl, ?_, ?_⟩
  · intro t ht
    simp at ht
  · intro t ht _
    rw [List.mem_singleton.mp ht]
    decide

/-- **C2**, witness: a fresh priority-`3` source facing effective lock
priority `5` is masked by the lock. -/
theorem isMasked_by_lock_iff_witness :
    hasExpired c2h 1 = false ∧ isMasked c2h 5 1 = true := by
  have hfresh : hasExpired c2h 1 = false := by norm_num [hasExpired, c2h]
  exact ⟨hfresh, ((isMasked_by_lock_iff c2h 5 1 hfresh).1).mpr (by decide)⟩

/-- **C3**, witness: among locks of priorities `3` (locked), `4` (not
asserted) and `1` (locked), the computed effective lock priority is attained
by a locked lock. -/
theorem getLockPriority_max_witness :
    ∃ l ∈ [c3l1, c3l2, c3l3], isLocked l 1 = true ∧
      l.priority = getLockPriority [c3l1, c3l2, c3l3] 1 := by
  have hnn : ∀ l ∈ [c3l1, c3l2, c3l3], 0 ≤ l.priority := by decide
  have hl1 : isLocked c3l1 1 = true := by norm_num [isLocked, c3l1]
  exact ((getLockPriority_max [c3l1, c3l2, c3l3] 1 hnn).2
    ⟨c3l1, List.mem_cons_self _ _, hl1⟩).1

/-- **C4**, counterexample to the claim as stated.  Two fresh sources tied
at the spec-legal priority `0`: the earliest registered one does not win —
nobody does — because a zero priority never exceeds the loop's initial
running maximum. -/
theorem c4_claim_counterexample :
    isMasked c1z (getLockPriority [] 1) 1 = false ∧
    isMasked c4zb (getLockPriority [] 1) 1 = false ∧
    c4zb.priority = c1z.priority ∧
    hasPriority [] [c1z, c4zb] 1 c1z = false := by
  have hm : isMasked c1z (getLockPriority [] 1) 1 = false := by
    norm_num [isMasked, hasExpired, getLockPriority, lockLoop, c1z]
  have hmb : isMasked c4zb (getLockPriority [] 1) 1 = false := by
    norm_num [isMasked, hasExpired, getLockPriority, lockLoop, c4zb]
  refine ⟨hm, hmb, rfl, ?_⟩
  simp [hasPriority, selLoop, hm, hmb, c1z, c4zb]

/-- **C4**, witness: two fresh sources tied at priority `2`; the
first-registered one wins and the second loses. -/
theorem first_registered_wins_ties_witness :
    hasPriority [] [c4a, c4b] 1 c4a = true ∧
    hasPriority [] [c4a, c4b] 1 c4b = false := by
  have hma : isMasked c4a (getLockPriority [] 1) 1 = false := by
    norm_num [isMasked, hasExpired, getLockPriority, lockLoop, c4a]
  have hmb : isMasked c4b (getLockPriority [] 1) 1 = false := by
    norm_num [isMasked, hasExpired, getLockPriority, lockLoop, c4b]
  have hmax : ∀ t ∈ [c4a, c4b],
      isMasked t (getLockPriority [] 1) 1 = false → t.priority ≤ c4a.priority := by
    intro t ht _
    rcases List.mem_cons.mp ht with rfl | ht2
    · exact le_refl _
    · rw [List.mem_singleton.mp ht2]
      decide
  have hfirst : ∀ t ∈ ([] : List VelocityTopicHandle),
      isMasked t (getLockPriority [] 1) 1 = false → t.priority ≠ c4a.priority := by
    intro t ht
    simp at ht
  have h := first_registered_wins_ties [] [c4a, c4b] 1 [] [c4b] c4a (by decide) rfl
    hma (by decide) hmax hfirst ⟨c4b, List.mem_cons_self _ _, hmb, rfl⟩
  exact ⟨h.1, h.2 c4b (List.mem_cons_self _ _) hmb rfl⟩

/-- **C5**, counterexample to the claim as stated.  A bare command received
at time `5` under time-stamped output is published with payload intact but
with the default-constructed header: its stamp is `0`, not the reception
time `5`. -/
theorem c5_claim_counterexample :
    publishTwist true (initPub true) (TwistMsg.bare c5twist) =
      PublishResult.ok
        (OutMsg.stamped { header := { stamp := 0, frame_id := "" }, twist := c5twist }) ∧
    (0 : ℚ) ≠ 5 := by
  refine ⟨rfl, ?_⟩
  norm_num

/-- **C6**, counterexample to the claim as stated.  Every registered source
is masked (the single source never received data), yet `hasPriority`
answers true for it and its update is forwarded, because its configured
name equals the loop's sentinel `"NULL"`. -/
theorem c6_claim_counterexample :
    (∀ t ∈ [c6null], isMasked t (getLockPriority [] 1) 1 = true) ∧
    hasPriority [] [c6null] 1 c6null = true ∧
    onVelocityReceived ⟨[c6null], [], false⟩ 1 c6null (TwistMsg.bare c6twist) ≠
      none := by
  refine ⟨?_, ?_, ?_⟩
  · decide
  · decide
  · decide

/-- **C6**, witness: a single never-updated source is masked; it does not
win and its update is dropped. -/
theorem all_masked_no_winner_witness :
    hasPriority [] [c6stale] 1 c6stale = false ∧
    onVelocityReceived ⟨[c6stale], [], true⟩ 1 c6stale (TwistMsg.bare c6twist) =
      none := by
  have h := all_masked_no_winner [] [c6stale] 1 (by decide) (by decide)
    c6stale (List.mem_cons_self _ _)
  exact ⟨h.1, h.2 true (TwistMsg.bare c6twist)⟩

end TwistMuxModel
